import Mathlib

/-!
Verification of the GradeCalculatorWebApp core (src/script.js).

The development shallowly embeds the grade store and aggregation engine.
JavaScript runtime scalars (the values that can sit in a grade item's
`score`/`max` field or a category's `weight` field) are modelled by `JsVal`:
rational numbers stand in for JS numbers, with explicit `nan`, `inf`, `ninf`
constructors, plus `null` and `undefined`.  JSON-level values (what
`JSON.parse` can return, plus `undefined` as the result of a missed property
access) are modelled by `JVal`.
-/

/-- A JavaScript runtime scalar as it can appear in a numeric field of the
grade calculator: a (finite) number, `NaN`, `±Infinity`, `null`, or
`undefined`. -/
inductive JsVal where
  | num (q : ℚ)
  | nan
  | inf
  | ninf
  | null
  | undef
deriving DecidableEq, Repr

namespace JsVal

/-- JS `ToNumber` on these scalars: `null ↦ +0`, `undefined ↦ NaN`;
numbers (including `NaN`, `±Infinity`) are unchanged. -/
def toNumber : JsVal → JsVal
  | num q => num q
  | nan => nan
  | inf => inf
  | ninf => ninf
  | null => num 0
  | undef => nan

/-- JS `+` on numeric scalars (both operands go through `ToNumber`):
`NaN` is absorbing, `Infinity + (-Infinity) = NaN`. -/
def add (a b : JsVal) : JsVal :=
  match a.toNumber, b.toNumber with
  | num x, num y => num (x + y)
  | num _, inf => inf
  | num _, ninf => ninf
  | inf, num _ => inf
  | ninf, num _ => ninf
  | inf, inf => inf
  | ninf, ninf => ninf
  | inf, ninf => nan
  | ninf, inf => nan
  | _, _ => nan

/-- JS `*` (both operands through `ToNumber`): `NaN` is absorbing,
`±Infinity * 0 = NaN`, otherwise infinities follow the sign rule. -/
def mul (a b : JsVal) : JsVal :=
  match a.toNumber, b.toNumber with
  | num x, num y => num (x * y)
  | num x, inf => if x = 0 then nan else if 0 < x then inf else ninf
  | num x, ninf => if x = 0 then nan else if 0 < x then ninf else inf
  | inf, num y => if y = 0 then nan else if 0 < y then inf else ninf
  | ninf, num y => if y = 0 then nan else if 0 < y then ninf else inf
  | inf, inf => inf
  | ninf, ninf => inf
  | inf, ninf => ninf
  | ninf, inf => ninf
  | _, _ => nan

/-- JS `/` (both operands through `ToNumber`): `0/0 = NaN`, `x/0 = ±Infinity`
for `x ≠ 0`, `±Infinity / ±Infinity = NaN`, `x/±Infinity = 0`. -/
def div (a b : JsVal) : JsVal :=
  match a.toNumber, b.toNumber with
  | num x, num y =>
      if y = 0 then (if x = 0 then nan else if 0 < x then inf else ninf)
      else num (x / y)
  | num _, inf => num 0
  | num _, ninf => num 0
  | inf, num y => if 0 ≤ y then inf else ninf
  | ninf, num y => if 0 ≤ y then ninf else inf
  | _, _ => nan

/-- JS `>` (numeric comparison after `ToNumber`): any comparison involving
`NaN` is false. -/
def gt (a b : JsVal) : Bool :=
  match a.toNumber, b.toNumber with
  | num x, num y => y < x
  | num _, ninf => true
  | inf, num _ => true
  | inf, ninf => true
  | _, _ => false

/-- JS `>=` (numeric comparison after `ToNumber`): any comparison involving
`NaN` is false. -/
def ge (a b : JsVal) : Bool :=
  match a.toNumber, b.toNumber with
  | num x, num y => y ≤ x
  | num _, ninf => true
  | inf, num _ => true
  | inf, inf => true
  | ninf, ninf => true
  | inf, ninf => true
  | _, _ => false

/-- JS `=== 0`: true exactly for the number zero (`NaN === 0` is false). -/
def strictEqZero : JsVal → Bool
  | num q => q = 0
  | _ => false

/-- JS truthiness of these scalars: `0`, `NaN`, `null`, `undefined` are
falsy; every other number is truthy. -/
def truthy : JsVal → Bool
  | num q => q ≠ 0
  | inf => true
  | ninf => true
  | nan => false
  | null => false
  | undef => false

/-- JS `v || d`: `v` if truthy, else `d`.  Used for `cat.weight || 0`. -/
def orElse (v d : JsVal) : JsVal := if v.truthy then v else d

/-- The rational carried by a finite JS number, `0` otherwise.  Used only to
phrase specification-side formulas about values already known to be finite
numbers. -/
def numOf : JsVal → ℚ
  | num q => q
  | _ => 0

@[simp] theorem add_num_num (a b : ℚ) : (num a).add (num b) = num (a + b) := rfl

@[simp] theorem mul_num_num (a b : ℚ) : (num a).mul (num b) = num (a * b) := rfl

@[simp] theorem numOf_num (q : ℚ) : (num q).numOf = q := rfl

@[simp] theorem decide_num_eq_null (q : ℚ) : decide (num q = null) = false := rfl

@[simp] theorem decide_nan_eq_null : decide (nan = null) = false := rfl

@[simp] theorem decide_inf_eq_null : decide (inf = null) = false := rfl

@[simp] theorem decide_ninf_eq_null : decide (ninf = null) = false := rfl

@[simp] theorem decide_null_eq_null : decide ((null : JsVal) = null) = true := rfl

@[simp] theorem decide_undef_eq_null : decide (undef = null) = false := rfl

end JsVal

/-- A grade item (one assignment/test): `{ id, name, score, max }`.
`score` and `max` are JS scalars (`number | null`, or `undefined` when a key
is absent on a record handed in from outside). -/
structure GradeItem where
  id : String
  name : String
  score : JsVal
  max : JsVal
deriving DecidableEq, Repr

/-- A category: `{ id, name, weight, grades }`. -/
structure Category where
  id : String
  name : String
  weight : JsVal
  grades : List GradeItem
deriving DecidableEq, Repr

/-- The filter predicate of `calculateCategoryAverage` (src/script.js:134):
`g.score !== null && g.max !== null && g.max > 0`. -/
def isValidGrade (g : GradeItem) : Bool :=
  g.score ≠ JsVal.null && g.max ≠ JsVal.null && g.max.gt (JsVal.num 0)

/-- The `reduce` computing `totalScore` in `calculateCategoryAverage`
(src/script.js:143): `validGrades.reduce((sum, g) => sum + g.score, 0)`. -/
def totalScore (validGrades : List GradeItem) : JsVal :=
  validGrades.foldl (fun sum g => sum.add g.score) (JsVal.num 0)

/-- The `reduce` computing `totalMax` in `calculateCategoryAverage`
(src/script.js:144): `validGrades.reduce((sum, g) => sum + g.max, 0)`. -/
def totalMax (validGrades : List GradeItem) : JsVal :=
  validGrades.foldl (fun sum g => sum.add g.max) (JsVal.num 0)

/-- `calculateCategoryAverage(grades)` (src/script.js:133-147): filter to the
valid grades, return `null` when none remain, otherwise
`(totalScore / totalMax) * 100`. -/
def calculateCategoryAverage (grades : List GradeItem) : JsVal :=
  let validGrades := grades.filter isValidGrade
  if validGrades = [] then JsVal.null
  else ((totalScore validGrades).div (totalMax validGrades)).mul (JsVal.num 100)

/-- `calculateFinalGrade(categories, weighted)` (src/script.js:155-181):
pair every category with its average, keep those whose average is not
`null`; return `null` when none remain; in weighted mode return
`weightedSum / totalWeight` (or `null` when `totalWeight === 0`), in
unweighted mode the plain mean of the averages. -/
def calculateFinalGrade (categories : List Category) (weighted : Bool) : JsVal :=
  let categoriesWithAvg :=
    (categories.map (fun cat => (cat, calculateCategoryAverage cat.grades))).filter
      (fun p => p.2 ≠ JsVal.null)
  if categoriesWithAvg = [] then JsVal.null
  else if weighted then
    let totalWeight :=
      categoriesWithAvg.foldl
        (fun sum p => sum.add (p.1.weight.orElse (JsVal.num 0))) (JsVal.num 0)
    if totalWeight.strictEqZero then JsVal.null
    else
      let weightedSum :=
        categoriesWithAvg.foldl
          (fun sum p => sum.add (p.2.mul (p.1.weight.orElse (JsVal.num 0))))
          (JsVal.num 0)
      weightedSum.div totalWeight
  else
    let sum :=
      categoriesWithAvg.foldl (fun acc p => acc.add p.2) (JsVal.num 0)
    sum.div (JsVal.num categoriesWithAvg.length)

/-- `getLetterGrade(percentage)` (src/script.js:188-201): closed-lower-bound
thresholds checked highest first. -/
def getLetterGrade (percentage : JsVal) : String :=
  if percentage.ge (JsVal.num 93) then "A"
  else if percentage.ge (JsVal.num 90) then "A-"
  else if percentage.ge (JsVal.num 87) then "B+"
  else if percentage.ge (JsVal.num 83) then "B"
  else if percentage.ge (JsVal.num 80) then "B-"
  else if percentage.ge (JsVal.num 77) then "C+"
  else if percentage.ge (JsVal.num 73) then "C"
  else if percentage.ge (JsVal.num 70) then "C-"
  else if percentage.ge (JsVal.num 67) then "D+"
  else if percentage.ge (JsVal.num 63) then "D"
  else if percentage.ge (JsVal.num 60) then "D-"
  else "F"

/-! ## Well-formedness: the documented data-model types

The spec's data model types `score`/`max` as `number | absent` (absent being
`null` at the interface) and `weight` as a number. -/

/-- A scalar of the documented interface type `number | null` (a finite
number or `null`). -/
def wfScalar : JsVal → Bool
  | JsVal.num _ => true
  | JsVal.null => true
  | _ => false

/-- A grade item of the documented shape: `score` and `max` are each a
finite number or `null`. -/
def wfGrade (g : GradeItem) : Bool :=
  wfScalar g.score && wfScalar g.max

/-- A category of the documented shape: a finite numeric `weight` and
well-formed grade items. -/
def wfCategory (c : Category) : Bool :=
  (match c.weight with | JsVal.num _ => true | _ => false) && c.grades.all wfGrade

/-! ## Specification-side formulas (from the spec's words, for refinement) -/

/-- The spec's validity test: `score` and `max` present (non-absent) and
`max > 0`. -/
def specValidGrade (g : GradeItem) : Bool :=
  g.score ≠ JsVal.null && g.max ≠ JsVal.null && decide (0 < g.max.numOf)

/-- The spec's category-average formula: filter to the valid items; no valid
item means "no data" (`none`); otherwise 100 × (sum of valid scores) /
(sum of valid maxes). -/
def specCategoryAverage (grades : List GradeItem) : Option ℚ :=
  let valid := grades.filter specValidGrade
  if valid = [] then none
  else some (100 * ((valid.map fun g => g.score.numOf).sum) /
    ((valid.map fun g => g.max.numOf).sum))

/-- Whether a category has data: its average is not the absent value. -/
def hasData (c : Category) : Bool :=
  calculateCategoryAverage c.grades ≠ JsVal.null

/-- The rational average of a category (meaningful when it has data). -/
def avgQ (c : Category) : ℚ := (calculateCategoryAverage c.grades).numOf

/-- The rational weight of a category (meaningful when well-formed). -/
def weightQ (c : Category) : ℚ := c.weight.numOf

/-- The spec's weighted final-grade formula: over categories with data,
`none` if there are none or if their weights sum to zero, otherwise
(Σ averageᵢ·weightᵢ)/(Σ weightᵢ). -/
def specFinalWeighted (categories : List Category) : Option ℚ :=
  let withData := categories.filter hasData
  if withData = [] then none
  else if (withData.map weightQ).sum = 0 then none
  else some (((withData.map fun c => avgQ c * weightQ c).sum) /
    ((withData.map weightQ).sum))

/-- The spec's unweighted final-grade formula: the arithmetic mean of the
averages of the categories with data (`none` when there are none). -/
def specFinalUnweighted (categories : List Category) : Option ℚ :=
  let withData := categories.filter hasData
  if withData = [] then none
  else some (((withData.map avgQ).sum) / withData.length)

/-- The spec's letter-grade table, as a function on rationals. -/
def specLetter (q : ℚ) : String :=
  if 93 ≤ q then "A"
  else if 90 ≤ q then "A-"
  else if 87 ≤ q then "B+"
  else if 83 ≤ q then "B"
  else if 80 ≤ q then "B-"
  else if 77 ≤ q then "C+"
  else if 73 ≤ q then "C"
  else if 70 ≤ q then "C-"
  else if 67 ≤ q then "D+"
  else if 63 ≤ q then "D"
  else if 60 ≤ q then "D-"
  else "F"

/-! ## Fold evaluation lemmas -/

/-- Folding JS `+` over values that are all finite numbers, starting from a
finite number, produces the finite rational sum. -/
theorem foldl_add_num {α : Type} (f : α → JsVal) :
    ∀ (l : List α) (a : ℚ), (∀ x ∈ l, ∃ q : ℚ, f x = JsVal.num q) →
      l.foldl (fun sum x => sum.add (f x)) (JsVal.num a) =
        JsVal.num (a + (l.map fun x => (f x).numOf).sum) := by
  intro l
  induction l with
  | nil => intro a _; simp
  | cons x xs ih =>
      intro a h
      obtain ⟨q, hq⟩ := h x (List.mem_cons_self x xs)
      have hxs : ∀ y ∈ xs, ∃ q : ℚ, f y = JsVal.num q :=
        fun y hy => h y (List.mem_cons_of_mem x hy)
      rw [List.foldl_cons, hq, JsVal.add_num_num, ih (a + q) hxs,
        List.map_cons, List.sum_cons, hq, JsVal.numOf_num]
      congr 1
      ring

/-- Division of finite JS numbers by a nonzero finite JS number is exact
rational division. -/
theorem JsVal.div_num_num (a b : ℚ) (hb : b ≠ 0) :
    (JsVal.num a).div (JsVal.num b) = JsVal.num (a / b) := by
  simp [JsVal.div, JsVal.toNumber, hb]

/-- On well-formed grade items the code's filter agrees with the spec's
validity test. -/
theorem isValidGrade_eq_spec (g : GradeItem) (h : wfGrade g = true) :
    isValidGrade g = specValidGrade g := by
  rcases g with ⟨i, n, sc, mx⟩
  simp only [wfGrade, wfScalar, Bool.and_eq_true] at h
  obtain ⟨hs, hm⟩ := h
  cases mx <;> cases sc <;>
    simp_all [isValidGrade, specValidGrade, JsVal.gt, JsVal.toNumber,
      JsVal.numOf]

/-- A well-formed grade item passing the spec filter has a numeric score. -/
theorem valid_score_num (g : GradeItem) (hwf : wfGrade g = true)
    (hv : specValidGrade g = true) : ∃ q : ℚ, g.score = JsVal.num q := by
  simp only [wfGrade, wfScalar, Bool.and_eq_true] at hwf
  simp only [specValidGrade, Bool.and_eq_true, decide_eq_true_eq] at hv
  cases hsc : g.score <;> simp_all

/-- A well-formed grade item passing the spec filter has a numeric max. -/
theorem valid_max_num (g : GradeItem) (hwf : wfGrade g = true)
    (hv : specValidGrade g = true) : ∃ q : ℚ, g.max = JsVal.num q := by
  simp only [wfGrade, wfScalar, Bool.and_eq_true] at hwf
  simp only [specValidGrade, Bool.and_eq_true, decide_eq_true_eq] at hv
  cases hmx : g.max <;> simp_all

/-- Any grade item passing the spec filter has positive numeric `max`. -/
theorem valid_max_pos (g : GradeItem) (hv : specValidGrade g = true) :
    0 < g.max.numOf := by
  simp only [specValidGrade, Bool.and_eq_true, decide_eq_true_eq] at hv
  exact hv.2

/-- Core refinement: on well-formed grade lists `calculateCategoryAverage`
computes exactly the spec's points-earned-over-points-possible formula. -/
theorem categoryAverage_eq_spec (grades : List GradeItem)
    (h : ∀ g ∈ grades, wfGrade g = true) :
    calculateCategoryAverage grades =
      (specCategoryAverage grades).elim JsVal.null JsVal.num := by
  have hfilter : grades.filter isValidGrade = grades.filter specValidGrade :=
    List.filter_congr fun g hg => isValidGrade_eq_spec g (h g hg)
  simp only [calculateCategoryAverage, specCategoryAverage, hfilter]
  by_cases hv : grades.filter specValidGrade = []
  · simp [hv]
  · have hmem : ∀ g ∈ grades.filter specValidGrade,
        wfGrade g = true ∧ specValidGrade g = true := by
      intro g hg
      rw [List.mem_filter] at hg
      exact ⟨h g hg.1, hg.2⟩
    have hscore : ∀ g ∈ grades.filter specValidGrade,
        ∃ q : ℚ, g.score = JsVal.num q :=
      fun g hg => valid_score_num g (hmem g hg).1 (hmem g hg).2
    have hmax : ∀ g ∈ grades.filter specValidGrade,
        ∃ q : ℚ, g.max = JsVal.num q :=
      fun g hg => valid_max_num g (hmem g hg).1 (hmem g hg).2
    have hts : totalScore (grades.filter specValidGrade) =
        JsVal.num (((grades.filter specValidGrade).map
          fun g => g.score.numOf).sum) := by
      have := foldl_add_num (fun g => g.score)
        (grades.filter specValidGrade) 0 hscore
      simpa [totalScore] using this
    have htm : totalMax (grades.filter specValidGrade) =
        JsVal.num (((grades.filter specValidGrade).map
          fun g => g.max.numOf).sum) := by
      have := foldl_add_num (fun g => g.max)
        (grades.filter specValidGrade) 0 hmax
      simpa [totalMax] using this
    have hpos : 0 < ((grades.filter specValidGrade).map
        fun g => g.max.numOf).sum := by
      apply List.sum_pos
      · intro x hx
        rw [List.mem_map] at hx
        obtain ⟨g, hg, rfl⟩ := hx
        exact valid_max_pos g (hmem g hg).2
      · simpa using hv
    rw [if_neg hv, if_neg hv, hts, htm,
      JsVal.div_num_num _ _ (ne_of_gt hpos), JsVal.mul_num_num]
    simp only [Option.elim_some]
    congr 1
    ring

/-- The pairing-then-filtering step of `calculateFinalGrade` equals filtering
the categories with data and then pairing. -/
theorem withAvg_eq (cats : List Category) :
    ((cats.map fun cat => (cat, calculateCategoryAverage cat.grades)).filter
      fun p => p.2 ≠ JsVal.null) =
    (cats.filter hasData).map fun cat => (cat, calculateCategoryAverage cat.grades) := by
  induction cats with
  | nil => rfl
  | cons c cs ih =>
      simp only [List.map_cons, List.filter_cons]
      by_cases hc : calculateCategoryAverage c.grades = JsVal.null
      · rw [if_neg (by simp [hc]), if_neg (by simp [hasData, hc]), ih]
      · rw [if_pos (by simp [hc]), if_pos (by simp [hasData, hc]),
          List.map_cons, ih]

/-- Generic evaluation of the folds of `calculateFinalGrade`: a fold of JS
`+` over the category/average pairs whose step produces finite numbers
computes the corresponding rational sum. -/
theorem foldl_pairs (l : List Category) (f : Category × JsVal → JsVal)
    (g : Category → ℚ)
    (hfg : ∀ c ∈ l, f (c, calculateCategoryAverage c.grades) = JsVal.num (g c)) :
    (l.map fun cat => (cat, calculateCategoryAverage cat.grades)).foldl
      (fun sum p => sum.add (f p)) (JsVal.num 0) =
    JsVal.num ((l.map g).sum) := by
  have h1 : ∀ p ∈ l.map fun cat => (cat, calculateCategoryAverage cat.grades),
      ∃ q : ℚ, f p = JsVal.num q := by
    intro p hp
    rw [List.mem_map] at hp
    obtain ⟨c, hc, rfl⟩ := hp
    exact ⟨g c, hfg c hc⟩
  rw [foldl_add_num f _ 0 h1, List.map_map, zero_add]
  congr 1
  congr 1
  apply List.map_congr_left
  intro c hc
  simp only [Function.comp_apply, hfg c hc, JsVal.numOf_num]

/-- A well-formed category has a finite numeric weight. -/
theorem wfCategory_weight (c : Category) (h : wfCategory c = true) :
    ∃ w : ℚ, c.weight = JsVal.num w := by
  simp only [wfCategory, Bool.and_eq_true] at h
  cases hw : c.weight <;> simp_all

/-- A well-formed category has well-formed grade items. -/
theorem wfCategory_grades (c : Category) (h : wfCategory c = true) :
    ∀ g ∈ c.grades, wfGrade g = true := by
  simp only [wfCategory, Bool.and_eq_true, List.all_eq_true] at h
  exact h.2

/-- For a well-formed category, `weight || 0` is the category's numeric
weight. -/
theorem weight_orElse (c : Category) (h : wfCategory c = true) :
    c.weight.orElse (JsVal.num 0) = JsVal.num (weightQ c) := by
  obtain ⟨w, hw⟩ := wfCategory_weight c h
  rw [JsVal.orElse, weightQ, hw]
  by_cases hw0 : w = 0
  · simp [JsVal.truthy, JsVal.numOf, hw0]
  · simp [JsVal.truthy, JsVal.numOf, hw0]

/-- A category with data and well-formed grades has the spec's rational
average. -/
theorem hasData_avg (c : Category) (hwf : ∀ g ∈ c.grades, wfGrade g = true)
    (hd : hasData c = true) :
    calculateCategoryAverage c.grades = JsVal.num (avgQ c) := by
  have hc := categoryAverage_eq_spec c.grades hwf
  cases hspec : specCategoryAverage c.grades with
  | none =>
      rw [hspec] at hc
      simp only [Option.elim_none] at hc
      simp [hasData, hc] at hd
  | some q =>
      rw [hspec] at hc
      simp only [Option.elim_some] at hc
      simp [avgQ, hc]

/-- Core refinement for weighted mode: on well-formed categories
`calculateFinalGrade` computes the spec's weighted formula. -/
theorem finalWeighted_eq_spec (cats : List Category)
    (h : ∀ c ∈ cats, wfCategory c = true) :
    calculateFinalGrade cats true =
      (specFinalWeighted cats).elim JsVal.null JsVal.num := by
  simp only [calculateFinalGrade, specFinalWeighted, withAvg_eq]
  by_cases hwd : cats.filter hasData = []
  · simp [hwd]
  · have hmem : ∀ c ∈ cats.filter hasData,
        wfCategory c = true ∧ hasData c = true := by
      intro c hc
      rw [List.mem_filter] at hc
      exact ⟨h c hc.1, hc.2⟩
    have hmap_ne : (cats.filter hasData).map
        (fun cat => (cat, calculateCategoryAverage cat.grades)) ≠ [] := by
      simpa using hwd
    have htw : (List.map (fun cat => (cat, calculateCategoryAverage cat.grades))
        (List.filter hasData cats)).foldl
          (fun sum p => sum.add (p.1.weight.orElse (JsVal.num 0))) (JsVal.num 0) =
        JsVal.num (List.map weightQ (List.filter hasData cats)).sum :=
      foldl_pairs _ _ weightQ (fun c hc => weight_orElse c (hmem c hc).1)
    have hws : (List.map (fun cat => (cat, calculateCategoryAverage cat.grades))
        (List.filter hasData cats)).foldl
          (fun sum p => sum.add (p.2.mul (p.1.weight.orElse (JsVal.num 0))))
          (JsVal.num 0) =
        JsVal.num (List.map (fun c => avgQ c * weightQ c)
          (List.filter hasData cats)).sum :=
      foldl_pairs _ _ _ (fun c hc => by
        show (calculateCategoryAverage c.grades).mul
            (c.weight.orElse (JsVal.num 0)) = JsVal.num (avgQ c * weightQ c)
        rw [hasData_avg c (wfCategory_grades c (hmem c hc).1) (hmem c hc).2,
          weight_orElse c (hmem c hc).1, JsVal.mul_num_num])
    rw [if_neg hmap_ne, if_neg hwd, if_pos trivial, htw, hws]
    by_cases hT : ((cats.filter hasData).map weightQ).sum = 0
    · rw [if_pos (by simp [JsVal.strictEqZero, hT]), if_pos hT]
      rfl
    · rw [if_neg (by simp [JsVal.strictEqZero, hT]), if_neg hT,
        JsVal.div_num_num _ _ hT, Option.elim_some]

/-- Core refinement for unweighted mode: on categories with well-formed
grade items `calculateFinalGrade` computes the plain mean of the averages
of the categories with data, independently of every weight. -/
theorem finalUnweighted_eq_spec (cats : List Category)
    (h : ∀ c ∈ cats, ∀ g ∈ c.grades, wfGrade g = true) :
    calculateFinalGrade cats false =
      (specFinalUnweighted cats).elim JsVal.null JsVal.num := by
  simp only [calculateFinalGrade, specFinalUnweighted, withAvg_eq]
  by_cases hwd : cats.filter hasData = []
  · simp [hwd]
  · have hmem : ∀ c ∈ cats.filter hasData,
        (∀ g ∈ c.grades, wfGrade g = true) ∧ hasData c = true := by
      intro c hc
      rw [List.mem_filter] at hc
      exact ⟨h c hc.1, hc.2⟩
    have hmap_ne : (cats.filter hasData).map
        (fun cat => (cat, calculateCategoryAverage cat.grades)) ≠ [] := by
      simpa using hwd
    have hsum : (List.map (fun cat => (cat, calculateCategoryAverage cat.grades))
        (List.filter hasData cats)).foldl
          (fun acc p => acc.add p.2) (JsVal.num 0) =
        JsVal.num (List.map avgQ (List.filter hasData cats)).sum :=
      foldl_pairs _ _ avgQ (fun c hc => hasData_avg c (hmem c hc).1 (hmem c hc).2)
    have hlen : ((cats.filter hasData).map
        (fun cat => (cat, calculateCategoryAverage cat.grades))).length =
        (cats.filter hasData).length := List.length_map _ _
    have hlen_ne : ((cats.filter hasData).length : ℚ) ≠ 0 := by
      exact_mod_cast Nat.pos_iff_ne_zero.mp
        (List.length_pos.mpr hwd)
    rw [if_neg hmap_ne, if_neg hwd, if_neg (by simp), hsum, hlen,
      JsVal.div_num_num _ _ hlen_ne, Option.elim_some]

@[simp] theorem JsVal.ge_num_num (a b : ℚ) :
    (JsVal.num a).ge (JsVal.num b) = decide (b ≤ a) := rfl

/-- `getLetterGrade` on a finite number is exactly the spec's threshold
table. -/
theorem letter_eq_spec (q : ℚ) :
    getLetterGrade (JsVal.num q) = specLetter q := by
  simp only [getLetterGrade, specLetter, JsVal.ge_num_num, decide_eq_true_eq]

/-- A JS value that is a positive finite number or `+Infinity` (the values a
valid grade's `max` can take). -/
def IsPosVal (v : JsVal) : Prop :=
  (∃ q : ℚ, v = JsVal.num q ∧ 0 < q) ∨ v = JsVal.inf

theorem IsPosVal.add {a b : JsVal} (ha : IsPosVal a) (hb : IsPosVal b) :
    IsPosVal (a.add b) := by
  rcases ha with ⟨x, rfl, hx⟩ | rfl <;> rcases hb with ⟨y, rfl, hy⟩ | rfl
  · exact Or.inl ⟨x + y, rfl, by positivity⟩
  · exact Or.inr rfl
  · exact Or.inr rfl
  · exact Or.inr rfl

theorem IsPosVal.zero_add {b : JsVal} (hb : IsPosVal b) :
    IsPosVal ((JsVal.num 0).add b) := by
  rcases hb with ⟨y, rfl, hy⟩ | rfl
  · exact Or.inl ⟨0 + y, rfl, by simpa using hy⟩
  · exact Or.inr rfl

theorem IsPosVal.gt_zero {v : JsVal} (h : IsPosVal v) :
    v.gt (JsVal.num 0) = true := by
  rcases h with ⟨q, rfl, hq⟩ | rfl
  · simpa [JsVal.gt, JsVal.toNumber] using hq
  · rfl

/-- Anything the code's filter keeps has a `max` that is a positive number
or `+Infinity` — with no well-formedness assumption at all. -/
theorem isValidGrade_max_pos (g : GradeItem) (h : isValidGrade g = true) :
    IsPosVal g.max := by
  simp only [isValidGrade, Bool.and_eq_true] at h
  cases hmx : g.max with
  | num q =>
      refine Or.inl ⟨q, rfl, ?_⟩
      have := h.2
      rw [hmx] at this
      simpa [JsVal.gt, JsVal.toNumber] using this
  | inf => exact Or.inr rfl
  | _ =>
      exfalso
      have := h.2
      rw [hmx] at this
      simp [JsVal.gt, JsVal.toNumber] at this

theorem totalMax_foldl_pos (l : List GradeItem) :
    ∀ acc : JsVal, IsPosVal acc → (∀ g ∈ l, IsPosVal g.max) →
      IsPosVal (l.foldl (fun sum g => sum.add g.max) acc) := by
  induction l with
  | nil => exact fun acc hacc _ => hacc
  | cons g gs ih =>
      intro acc hacc h
      rw [List.foldl_cons]
      exact ih _ (hacc.add (h g (List.mem_cons_self g gs)))
        fun x hx => h x (List.mem_cons_of_mem g hx)

/-- The summed `max` of a nonempty list of code-valid grades is positive in
the JS sense: the division of `calculateCategoryAverage` is guarded on
every input. -/
theorem totalMax_pos_of_valid (grades : List GradeItem)
    (hne : grades.filter isValidGrade ≠ []) :
    (totalMax (grades.filter isValidGrade)).gt (JsVal.num 0) = true := by
  have hval : ∀ g ∈ grades.filter isValidGrade, IsPosVal g.max := by
    intro g hg
    rw [List.mem_filter] at hg
    exact isValidGrade_max_pos g hg.2
  cases hfl : grades.filter isValidGrade with
  | nil => exact absurd hfl hne
  | cons g gs =>
      rw [hfl] at hval
      have h1 : IsPosVal ((JsVal.num 0).add g.max) :=
        IsPosVal.zero_add (hval g (List.mem_cons_self g gs))
      have := totalMax_foldl_pos gs ((JsVal.num 0).add g.max) h1
        (fun x hx => hval x (List.mem_cons_of_mem g hx))
      rw [totalMax, List.foldl_cons]
      exact this.gt_zero

/-- On well-formed grade lists the category average is `null` or a finite
number (never `NaN` or an infinity, and never an error). -/
theorem categoryAverage_null_or_num (grades : List GradeItem)
    (h : ∀ g ∈ grades, wfGrade g = true) :
    calculateCategoryAverage grades = JsVal.null ∨
      ∃ q : ℚ, calculateCategoryAverage grades = JsVal.num q := by
  rw [categoryAverage_eq_spec grades h]
  cases specCategoryAverage grades with
  | none => exact Or.inl rfl
  | some q => exact Or.inr ⟨q, rfl⟩

/-- On well-formed categories the final grade is `null` or a finite number,
in both modes. -/
theorem finalGrade_null_or_num (cats : List Category) (weighted : Bool)
    (h : ∀ c ∈ cats, wfCategory c = true) :
    calculateFinalGrade cats weighted = JsVal.null ∨
      ∃ q : ℚ, calculateFinalGrade cats weighted = JsVal.num q := by
  cases weighted with
  | true =>
      rw [finalWeighted_eq_spec cats h]
      cases specFinalWeighted cats with
      | none => exact Or.inl rfl
      | some q => exact Or.inr ⟨q, rfl⟩
  | false =>
      rw [finalUnweighted_eq_spec cats
        fun c hc => wfCategory_grades c (h c hc)]
      cases specFinalUnweighted cats with
      | none => exact Or.inl rfl
      | some q => exact Or.inr ⟨q, rfl⟩

set_option maxHeartbeats 1000000 in
/-- `getLetterGrade` always returns one of the twelve letter strings. -/
theorem letter_mem (v : JsVal) :
    getLetterGrade v ∈ ["A", "A-", "B+", "B", "B-", "C+", "C", "C-",
      "D+", "D", "D-", "F"] := by
  cases v with
  | num q =>
      rw [letter_eq_spec, specLetter]
      split_ifs <;> decide
  | nan => decide
  | inf => decide
  | ninf => decide
  | null => decide
  | undef => decide

/-! ## The grade store: state and mutations (src/script.js:16-21, 261-285,
369-401) -/

/-- The application state (src/script.js:16-21): the category list, the
weighted-mode flag, and the two id-minting counters. -/
structure CalculatorState where
  categories : List Category
  isWeighted : Bool
  nextCategoryId : ℕ
  nextGradeId : ℕ
deriving DecidableEq, Repr

/-- The initial state (src/script.js:16-21). -/
def initialState : CalculatorState :=
  { categories := [], isWeighted := true, nextCategoryId := 1, nextGradeId := 1 }

/-- `createCategory(name, weight)` (src/script.js:261-271): mint
`'cat-' + nextCategoryId++`, append the new category, return it. -/
def createCategory (name : String) (weight : JsVal) (s : CalculatorState) :
    Category × CalculatorState :=
  let category : Category :=
    { id := "cat-" ++ toString s.nextCategoryId, name := name,
      weight := weight, grades := [] }
  (category,
   { s with categories := s.categories ++ [category],
            nextCategoryId := s.nextCategoryId + 1 })

/-- `removeCategory(categoryId)` (src/script.js:277-285): filter the
category out (DOM work elided). -/
def removeCategory (categoryId : String) (s : CalculatorState) :
    CalculatorState :=
  { s with categories := s.categories.filter fun c => c.id ≠ categoryId }

/-- Apply `f` to the first category with the given id (the JS pattern
`categories.find(c => c.id === categoryId)` followed by a mutation of the
found object). -/
def updateCategory (categoryId : String) (f : Category → Category) :
    List Category → List Category
  | [] => []
  | c :: cs =>
      if c.id = categoryId then f c :: cs
      else c :: updateCategory categoryId f cs

/-- `createGrade(categoryId, name, score, max)` (src/script.js:369-382):
`null` (here `none`) and no state change when the category is absent;
otherwise mint `'grade-' + nextGradeId++` and push the grade onto the found
category. -/
def createGrade (categoryId name : String) (score maxScore : JsVal)
    (s : CalculatorState) : Option GradeItem × CalculatorState :=
  if s.categories.any fun c => c.id = categoryId then
    let grade : GradeItem :=
      { id := "grade-" ++ toString s.nextGradeId, name := name,
        score := score, max := maxScore }
    (some grade,
     { s with
        categories := updateCategory categoryId
          (fun c => { c with grades := c.grades ++ [grade] }) s.categories,
        nextGradeId := s.nextGradeId + 1 })
  else (none, s)

/-- `removeGrade(categoryId, gradeId)` (src/script.js:389-401): return with
no change when the category is absent; otherwise filter the grade out of
the found category (DOM work elided). -/
def removeGrade (categoryId gradeId : String) (s : CalculatorState) :
    CalculatorState :=
  if s.categories.any fun c => c.id = categoryId then
    { s with
       categories := updateCategory categoryId
         (fun c => { c with grades := c.grades.filter fun g => g.id ≠ gradeId })
         s.categories }
  else s

/-- A store mutation, for stating invariants over operation sequences. -/
inductive StoreOp where
  | newCategory (name : String) (weight : JsVal)
  | dropCategory (categoryId : String)
  | newGrade (categoryId name : String) (score maxScore : JsVal)
  | dropGrade (categoryId gradeId : String)

/-- Run one store mutation on the state. -/
def applyOp (s : CalculatorState) : StoreOp → CalculatorState
  | StoreOp.newCategory n w => (createCategory n w s).2
  | StoreOp.dropCategory cid => removeCategory cid s
  | StoreOp.newGrade cid n sc mx => (createGrade cid n sc mx s).2
  | StoreOp.dropGrade cid gid => removeGrade cid gid s

/-- Run a sequence of store mutations on the state. -/
def applyOps (s : CalculatorState) (ops : List StoreOp) : CalculatorState :=
  ops.foldl applyOp s

/-- One operation never decreases either counter. -/
theorem applyOp_counters (s : CalculatorState) (op : StoreOp) :
    s.nextCategoryId ≤ (applyOp s op).nextCategoryId ∧
      s.nextGradeId ≤ (applyOp s op).nextGradeId := by
  cases op with
  | newCategory n w =>
      exact ⟨Nat.le_succ _, le_refl _⟩
  | dropCategory cid => exact ⟨le_refl _, le_refl _⟩
  | newGrade cid n sc mx =>
      rw [applyOp, createGrade]
      by_cases h : s.categories.any fun c => c.id = cid
      · rw [if_pos h]
        exact ⟨le_refl _, Nat.le_succ _⟩
      · rw [if_neg h]
        exact ⟨le_refl _, le_refl _⟩
  | dropGrade cid gid =>
      rw [applyOp, removeGrade]
      by_cases h : s.categories.any fun c => c.id = cid
      · rw [if_pos h]
        exact ⟨le_refl _, le_refl _⟩
      · rw [if_neg h]
        exact ⟨le_refl _, le_refl _⟩

/-- No sequence of operations ever decreases either counter. -/
theorem applyOps_counters (ops : List StoreOp) :
    ∀ s : CalculatorState,
      s.nextCategoryId ≤ (applyOps s ops).nextCategoryId ∧
        s.nextGradeId ≤ (applyOps s ops).nextGradeId := by
  induction ops with
  | nil => exact fun s => ⟨le_refl _, le_refl _⟩
  | cons op ops ih =>
      intro s
      have h1 := applyOp_counters s op
      have h2 := ih (applyOp s op)
      exact ⟨le_trans h1.1 h2.1, le_trans h1.2 h2.2⟩

/-- `updateCategory` is the identity when `f` fixes every category whose id
matches. -/
theorem updateCategory_fix (cid : String) (f : Category → Category) :
    ∀ l : List Category, (∀ c ∈ l, c.id = cid → f c = c) →
      updateCategory cid f l = l := by
  intro l
  induction l with
  | nil => intro _; rfl
  | cons c cs ih =>
      intro h
      rw [updateCategory]
      by_cases hc : c.id = cid
      · rw [if_pos hc, h c (List.mem_cons_self c cs) hc]
      · rw [if_neg hc, ih fun x hx hxid => h x (List.mem_cons_of_mem c hx) hxid]

/-- Removing a category id that no category bears leaves the state
unchanged. -/
theorem removeCategory_noop (s : CalculatorState) (cid : String)
    (h : ∀ c ∈ s.categories, c.id ≠ cid) : removeCategory cid s = s := by
  rw [removeCategory]
  have hf : (s.categories.filter fun c => c.id ≠ cid) = s.categories :=
    List.filter_eq_self.mpr fun c hc => by simpa using h c hc
  rw [hf]

theorem any_eq_false_of_absent (s : CalculatorState) (cid : String)
    (h : ∀ c ∈ s.categories, c.id ≠ cid) :
    ¬ (s.categories.any fun c => c.id = cid) = true := by
  simp only [List.any_eq_true, decide_eq_true_eq]
  rintro ⟨c, hc, hcid⟩
  exact h c hc hcid

/-- Creating a grade in a nonexistent category returns nothing and changes
nothing. -/
theorem createGrade_noop (s : CalculatorState) (cid n : String)
    (sc mx : JsVal) (h : ∀ c ∈ s.categories, c.id ≠ cid) :
    createGrade cid n sc mx s = (none, s) := by
  rw [createGrade, if_neg (any_eq_false_of_absent s cid h)]

/-- Removing a grade via a nonexistent category id changes nothing. -/
theorem removeGrade_noop_nocat (s : CalculatorState) (cid gid : String)
    (h : ∀ c ∈ s.categories, c.id ≠ cid) : removeGrade cid gid s = s := by
  rw [removeGrade, if_neg (any_eq_false_of_absent s cid h)]

/-- Removing a grade id that no grade bears changes nothing, whatever the
category id. -/
theorem removeGrade_noop_nogid (s : CalculatorState) (cid gid : String)
    (h : ∀ c ∈ s.categories, ∀ g ∈ c.grades, g.id ≠ gid) :
    removeGrade cid gid s = s := by
  rw [removeGrade]
  by_cases hany : (s.categories.any fun c => c.id = cid) = true
  · rw [if_pos hany]
    have hu : updateCategory cid
        (fun c => { c with grades := c.grades.filter fun g => g.id ≠ gid })
        s.categories = s.categories := by
      apply updateCategory_fix
      intro c hc _
      have hg : (c.grades.filter fun g => g.id ≠ gid) = c.grades :=
        List.filter_eq_self.mpr fun g hgm => by simpa using h c hc g hgm
      rw [hg]
    rw [hu]
  · rw [if_neg hany]

/-! ## Persistence (src/script.js:45-78)

`saveState` serializes `{categories, isWeighted, nextCategoryId,
nextGradeId}` with `JSON.stringify`; `loadState` parses the stored string
and reads the four fields back with `||`/ternary defaults.  `JVal` models a
parsed JSON value, plus `jundef` for the result of a missed property
access. -/

/-- A JSON-level value: what `JSON.parse` can produce, plus `jundef`, the
JS `undefined` produced by accessing a missing property. -/
inductive JVal where
  | jnum (q : ℚ)
  | jstr (s : String)
  | jbool (b : Bool)
  | jnull
  | jarr (elems : List JVal)
  | jobj (fields : List (String × JVal))
  | jundef

namespace JVal

/-- JS truthiness of a parsed value (`NaN` cannot appear in parsed JSON). -/
def truthy : JVal → Bool
  | jnum q => q ≠ 0
  | jstr s => s ≠ ""
  | jbool b => b
  | jnull => false
  | jarr _ => true
  | jobj _ => true
  | jundef => false

/-- JS `v || d`. -/
def orDefault (v d : JVal) : JVal := if v.truthy then v else d

/-- JS property access `v[k]`: the first field named `k` of an object,
`undefined` otherwise (a missed key, or a primitive receiver). -/
def propGet (v : JVal) (k : String) : JVal :=
  match v with
  | jobj fields => ((fields.find? fun p => p.1 = k).map Prod.snd).getD jundef
  | _ => jundef

/-- Is this value JS `undefined`? -/
def isUndef : JVal → Bool
  | jundef => true
  | _ => false

/-- Is this value JS `null`? -/
def isNull : JVal → Bool
  | jnull => true
  | _ => false

theorem orDefault_of_truthy {v : JVal} (d : JVal) (h : v.truthy = true) :
    v.orDefault d = v := by
  rw [orDefault, if_pos h]

end JVal

/-- What `localStorage.getItem` + `JSON.parse` can yield inside
`loadState`: no stored record (or a falsy stored string, or a storage
error), a stored string `JSON.parse` rejects, or a parsed value. -/
inductive StoredItem where
  | absent
  | corruptText
  | parsed (v : JVal)

/-- The fields of the global `state` object right after `loadState` ran:
raw parsed values, exactly as the assignments at src/script.js:68-71 leave
them (no shape validation happens there). -/
structure LoadedState where
  categories : JVal
  isWeighted : JVal
  nextCategoryId : JVal
  nextGradeId : JVal

/-- `loadState()` (src/script.js:63-78).  `absent`: `if (saved)` fails,
return `false`.  `corruptText`: `JSON.parse` throws, the `catch` logs and
`false` is returned with the state untouched.  A parsed `null` throws on
the first property access, caught the same way.  Otherwise the four fields
are assigned with their defaults (`|| []`, ternary on `undefined`, `|| 1`,
`|| 1`) and `true` is returned. -/
def loadState (item : StoredItem) (st : LoadedState) : LoadedState × Bool :=
  match item with
  | StoredItem.absent => (st, false)
  | StoredItem.corruptText => (st, false)
  | StoredItem.parsed v =>
      if v.isNull then (st, false)
      else
        ({ categories := (v.propGet "categories").orDefault (JVal.jarr []),
           isWeighted :=
             if (v.propGet "isWeighted").isUndef then JVal.jbool true
             else v.propGet "isWeighted",
           nextCategoryId :=
             (v.propGet "nextCategoryId").orDefault (JVal.jnum 1),
           nextGradeId :=
             (v.propGet "nextGradeId").orDefault (JVal.jnum 1) }, true)

/-- `JSON.stringify` of one numeric-or-null field: an `undefined` value is
omitted from the object, `NaN` and `±Infinity` serialize to `null`. -/
def encodeField (k : String) (v : JsVal) : List (String × JVal) :=
  match v with
  | JsVal.undef => []
  | JsVal.num q => [(k, JVal.jnum q)]
  | _ => [(k, JVal.jnull)]

/-- `JSON.stringify` of a grade item. -/
def encodeGrade (g : GradeItem) : JVal :=
  JVal.jobj ([("id", JVal.jstr g.id), ("name", JVal.jstr g.name)] ++
    encodeField "score" g.score ++ encodeField "max" g.max)

/-- `JSON.stringify` of a category. -/
def encodeCategory (c : Category) : JVal :=
  JVal.jobj ([("id", JVal.jstr c.id), ("name", JVal.jstr c.name)] ++
    encodeField "weight" c.weight ++
    [("grades", JVal.jarr (c.grades.map encodeGrade))])

/-- The object `saveState()` (src/script.js:45-57) serializes: the four
state fields under their own names. -/
def saveStateData (s : CalculatorState) : JVal :=
  JVal.jobj
    [("categories", JVal.jarr (s.categories.map encodeCategory)),
     ("isWeighted", JVal.jbool s.isWeighted),
     ("nextCategoryId", JVal.jnum s.nextCategoryId),
     ("nextGradeId", JVal.jnum s.nextGradeId)]

/-- Read a stored scalar back: numbers and `null` are the values a
well-formed field can take. -/
def decodeScalar : JVal → Option JsVal
  | JVal.jnum q => some (JsVal.num q)
  | JVal.jnull => some JsVal.null
  | _ => none

/-- Read a stored grade item back. -/
def decodeGrade (v : JVal) : Option GradeItem :=
  match v.propGet "id", v.propGet "name",
      decodeScalar (v.propGet "score"), decodeScalar (v.propGet "max") with
  | JVal.jstr i, JVal.jstr n, some sc, some mx =>
      some { id := i, name := n, score := sc, max := mx }
  | _, _, _, _ => none

/-- Decode every element of a list or fail. -/
def decodeList {α : Type} (dec : JVal → Option α) : List JVal → Option (List α)
  | [] => some []
  | v :: vs =>
      match dec v, decodeList dec vs with
      | some a, some rest => some (a :: rest)
      | _, _ => none

/-- Read a stored category back. -/
def decodeCategory (v : JVal) : Option Category :=
  match v.propGet "id", v.propGet "name", v.propGet "weight",
      v.propGet "grades" with
  | JVal.jstr i, JVal.jstr n, JVal.jnum w, JVal.jarr gs =>
      match decodeList decodeGrade gs with
      | some items =>
          some { id := i, name := n, weight := JsVal.num w, grades := items }
      | none => none
  | _, _, _, _ => none

/-- Read a stored category list back. -/
def decodeCategories (v : JVal) : Option (List Category) :=
  match v with
  | JVal.jarr vs => decodeList decodeCategory vs
  | _ => none

/-- A well-formed grade item decodes back from its serialized form. -/
theorem decodeGrade_encodeGrade (g : GradeItem) (h : wfGrade g = true) :
    decodeGrade (encodeGrade g) = some g := by
  rcases g with ⟨i, n, sc, mx⟩
  simp only [wfGrade, wfScalar, Bool.and_eq_true] at h
  cases sc <;> cases mx <;> first | rfl | simp_all

/-- Element-wise decoding inverts element-wise encoding. -/
theorem decodeList_map {α : Type} (dec : JVal → Option α) (enc : α → JVal)
    (l : List α) (h : ∀ x ∈ l, dec (enc x) = some x) :
    decodeList dec (l.map enc) = some l := by
  induction l with
  | nil => rfl
  | cons x xs ih =>
      rw [List.map_cons, decodeList, h x (List.mem_cons_self x xs),
        ih fun y hy => h y (List.mem_cons_of_mem x hy)]

/-- A well-formed category decodes back from its serialized form. -/
theorem decodeCategory_encodeCategory (c : Category) (h : wfCategory c = true) :
    decodeCategory (encodeCategory c) = some c := by
  rcases c with ⟨i, n, w, gs⟩
  simp only [wfCategory, Bool.and_eq_true, List.all_eq_true] at h
  obtain ⟨hw, hgs⟩ := h
  cases w with
  | num q =>
      have hl : decodeList decodeGrade (gs.map encodeGrade) = some gs :=
        decodeList_map _ _ gs fun g hg => decodeGrade_encodeGrade g (hgs g hg)
      have hred : decodeCategory (encodeCategory ⟨i, n, JsVal.num q, gs⟩) =
          match decodeList decodeGrade (gs.map encodeGrade) with
          | some items =>
              some { id := i, name := n, weight := JsVal.num q, grades := items }
          | none => none := rfl
      rw [hred, hl]
  | nan => simp at hw
  | inf => simp at hw
  | ninf => simp at hw
  | null => simp at hw
  | undef => simp at hw

/-- The serialized category list decodes back to the original sequence. -/
theorem decodeCategories_encode (cats : List Category)
    (h : ∀ c ∈ cats, wfCategory c = true) :
    decodeCategories (JVal.jarr (cats.map encodeCategory)) = some cats :=
  decodeList_map _ _ cats fun c hc => decodeCategory_encodeCategory c (h c hc)

/-- Loading what `saveState` stored succeeds and hands every field back
verbatim (counters at least 1 survive the `|| 1` default). -/
theorem loadState_saveState (s : CalculatorState) (st0 : LoadedState)
    (hc1 : 1 ≤ s.nextCategoryId) (hg1 : 1 ≤ s.nextGradeId) :
    loadState (StoredItem.parsed (saveStateData s)) st0 =
      ({ categories := JVal.jarr (s.categories.map encodeCategory),
         isWeighted := JVal.jbool s.isWeighted,
         nextCategoryId := JVal.jnum (s.nextCategoryId : ℚ),
         nextGradeId := JVal.jnum (s.nextGradeId : ℚ) }, true) := by
  have hred : loadState (StoredItem.parsed (saveStateData s)) st0 =
      ({ categories := JVal.jarr (s.categories.map encodeCategory),
         isWeighted := JVal.jbool s.isWeighted,
         nextCategoryId :=
           (JVal.jnum (s.nextCategoryId : ℚ)).orDefault (JVal.jnum 1),
         nextGradeId :=
           (JVal.jnum (s.nextGradeId : ℚ)).orDefault (JVal.jnum 1) }, true) := rfl
  have h2 : (JVal.jnum (s.nextCategoryId : ℚ)).truthy = true := by
    simp only [JVal.truthy, decide_eq_true_eq]
    exact Nat.cast_ne_zero.mpr (Nat.one_le_iff_ne_zero.mp hc1)
  have h3 : (JVal.jnum (s.nextGradeId : ℚ)).truthy = true := by
    simp only [JVal.truthy, decide_eq_true_eq]
    exact Nat.cast_ne_zero.mpr (Nat.one_le_iff_ne_zero.mp hg1)
  rw [hred, JVal.orDefault_of_truthy _ h2, JVal.orDefault_of_truthy _ h3]

/-! ## Sample data for concrete instantiations -/

/-- A grade list of the documented shape: two valid items and one with an
unentered (null) score. -/
def sampleGrades : List GradeItem :=
  [⟨"grade-1", "hw", JsVal.num 9, JsVal.num 10⟩,
   ⟨"grade-2", "quiz", JsVal.null, JsVal.num 50⟩,
   ⟨"grade-3", "exam", JsVal.num 40, JsVal.num 50⟩]

/-- Categories for the weighted mode: two with data and one empty. -/
def sampleCats : List Category :=
  [⟨"cat-1", "Homework", JsVal.num 50,
    [⟨"grade-1", "a", JsVal.num 90, JsVal.num 100⟩]⟩,
   ⟨"cat-2", "Exams", JsVal.num 50,
    [⟨"grade-2", "b", JsVal.num 80, JsVal.num 100⟩]⟩,
   ⟨"cat-3", "Empty", JsVal.num 10, []⟩]

/-- The spec's unweighted example: averages 90 and 70 with weights 100
and 1. -/
def sampleCatsUnweighted : List Category :=
  [⟨"cat-1", "A", JsVal.num 100,
    [⟨"grade-1", "x", JsVal.num 90, JsVal.num 100⟩]⟩,
   ⟨"cat-2", "B", JsVal.num 1,
    [⟨"grade-2", "y", JsVal.num 70, JsVal.num 100⟩]⟩]

/-- A small well-formed application state. -/
def sampleState : CalculatorState :=
  { categories :=
      [⟨"cat-1", "Assignments", JsVal.num 100,
        [⟨"grade-1", "hw", JsVal.num 9, JsVal.num 10⟩,
         ⟨"grade-2", "quiz", JsVal.null, JsVal.num 100⟩]⟩],
    isWeighted := true, nextCategoryId := 2, nextGradeId := 3 }

/-- A concrete pre-load state (the app's defaults). -/
def sampleLoaded : LoadedState :=
  { categories := JVal.jarr [], isWeighted := JVal.jbool true,
    nextCategoryId := JVal.jnum 1, nextGradeId := JVal.jnum 1 }

/-- A well-formed `CalculatorState`: well-formed categories, unique category
ids, per-category unique grade ids, counters at least 1. -/
def wfState (s : CalculatorState) : Bool :=
  s.categories.all wfCategory &&
  decide (s.categories.map Category.id).Nodup &&
  s.categories.all (fun c => decide (c.grades.map GradeItem.id).Nodup) &&
  decide (1 ≤ s.nextCategoryId) && decide (1 ≤ s.nextGradeId)

/-! ## The claims -/

/-- C1: for every list of grade items of the documented field type
(`number | null`), `calculateCategoryAverage` filters to the valid items
(score and max present, max > 0); with no valid item it returns the absent
value, otherwise 100 × (sum of valid scores) / (sum of valid maxes) —
points-earned over points-possible, not a mean of per-item percentages. -/
theorem C1_categoryAverage_spec (grades : List GradeItem)
    (h : ∀ g ∈ grades, wfGrade g = true) :
    calculateCategoryAverage grades =
      (specCategoryAverage grades).elim JsVal.null JsVal.num :=
  categoryAverage_eq_spec grades h

/-- Witness for C1 at a concrete grade list with a null-score item. -/
theorem C1_categoryAverage_spec_witness :
    (∀ g ∈ sampleGrades, wfGrade g = true) ∧
      calculateCategoryAverage sampleGrades =
        (specCategoryAverage sampleGrades).elim JsVal.null JsVal.num :=
  ⟨by decide, C1_categoryAverage_spec sampleGrades (by decide)⟩

/-- C2: in weighted mode, for every well-formed category list,
`calculateFinalGrade` drops the categories without data, returns the absent
value when none has data or when the remaining weights sum to exactly zero,
and otherwise (Σ averageᵢ·weightᵢ)/(Σ weightᵢ) over the categories with
data. -/
theorem C2_finalGrade_weighted_spec (cats : List Category)
    (h : ∀ c ∈ cats, wfCategory c = true) :
    calculateFinalGrade cats true =
      (specFinalWeighted cats).elim JsVal.null JsVal.num :=
  finalWeighted_eq_spec cats h

/-- Witness for C2 at a concrete category list with an empty category. -/
theorem C2_finalGrade_weighted_spec_witness :
    (∀ c ∈ sampleCats, wfCategory c = true) ∧
      calculateFinalGrade sampleCats true =
        (specFinalWeighted sampleCats).elim JsVal.null JsVal.num :=
  ⟨by decide, C2_finalGrade_weighted_spec sampleCats (by decide)⟩

/-- C3: `getLetterGrade` is exactly the closed-lower-bound threshold table
evaluated highest-first, with no rounding before comparison; in particular
93 ↦ "A", 92.999 ↦ "A-", 59.999 ↦ "F". -/
theorem C3_letterGrade_spec :
    (∀ q : ℚ, getLetterGrade (JsVal.num q) = specLetter q) ∧
      getLetterGrade (JsVal.num 93) = "A" ∧
      getLetterGrade (JsVal.num (92999/1000)) = "A-" ∧
      getLetterGrade (JsVal.num (59999/1000)) = "F" := by
  refine ⟨letter_eq_spec, ?_, ?_, ?_⟩
  · norm_num [getLetterGrade]
  · norm_num [getLetterGrade]
  · norm_num [getLetterGrade]

/-- C4: in unweighted mode, for every category list with well-formed grade
items (weights unconstrained and unused) and at least one category with
data, `calculateFinalGrade` is the arithmetic mean of the per-category
averages; on the spec's example (averages 90 and 70, weights 100 and 1) it
is 80. -/
theorem C4_finalGrade_unweighted_mean :
    (∀ cats : List Category, (∀ c ∈ cats, ∀ g ∈ c.grades, wfGrade g = true) →
      cats.filter hasData ≠ [] →
      calculateFinalGrade cats false =
        JsVal.num (((cats.filter hasData).map avgQ).sum /
          ((cats.filter hasData).length : ℚ))) ∧
    calculateFinalGrade sampleCatsUnweighted false = JsVal.num 80 := by
  constructor
  · intro cats h hne
    rw [finalUnweighted_eq_spec cats h]
    simp only [specFinalUnweighted]
    rw [if_neg hne, Option.elim_some]
  · rw [finalUnweighted_eq_spec sampleCatsUnweighted (by decide)]
    norm_num [specFinalUnweighted, hasData, avgQ, calculateCategoryAverage,
      totalScore, totalMax, isValidGrade, JsVal.div, JsVal.mul, JsVal.gt,
      JsVal.toNumber, JsVal.numOf, sampleCatsUnweighted, List.filter,
      List.foldl, List.cons_ne_nil]

/-- C5: loading the serialized form produced by save reproduces an
equivalent well-formed state: load succeeds, the flag and both counters come
back verbatim, and the stored category value decodes to the original
category sequence (same order, ids, names, weights and grade items). -/
theorem C5_save_load_roundtrip (s : CalculatorState) (st0 : LoadedState)
    (h : wfState s = true) :
    loadState (StoredItem.parsed (saveStateData s)) st0 =
      ({ categories := JVal.jarr (s.categories.map encodeCategory),
         isWeighted := JVal.jbool s.isWeighted,
         nextCategoryId := JVal.jnum (s.nextCategoryId : ℚ),
         nextGradeId := JVal.jnum (s.nextGradeId : ℚ) }, true) ∧
      decodeCategories (JVal.jarr (s.categories.map encodeCategory)) =
        some s.categories := by
  simp only [wfState, Bool.and_eq_true, List.all_eq_true,
    decide_eq_true_eq] at h
  obtain ⟨⟨⟨⟨h1, h2⟩, h3⟩, h4⟩, h5⟩ := h
  exact ⟨loadState_saveState s st0 h4 h5, decodeCategories_encode _ h1⟩

/-- Witness for C5 at a concrete well-formed state. -/
theorem C5_save_load_roundtrip_witness :
    wfState sampleState = true ∧
      (loadState (StoredItem.parsed (saveStateData sampleState)) sampleLoaded =
        ({ categories := JVal.jarr (sampleState.categories.map encodeCategory),
           isWeighted := JVal.jbool sampleState.isWeighted,
           nextCategoryId := JVal.jnum (sampleState.nextCategoryId : ℚ),
           nextGradeId := JVal.jnum (sampleState.nextGradeId : ℚ) }, true) ∧
       decodeCategories (JVal.jarr (sampleState.categories.map encodeCategory)) =
         some sampleState.categories) :=
  ⟨by decide, C5_save_load_roundtrip sampleState sampleLoaded (by decide)⟩

/-- C6 counterexample: a record whose `categories` entry is corrupt but
truthy (the number 5) does NOT load as an empty category sequence — the
corrupt value is stored as-is, because `data.categories || []` only replaces
falsy values. -/
theorem C6_corrupt_categories_kept :
    (loadState (StoredItem.parsed (JVal.jobj [("categories", JVal.jnum 5)]))
        sampleLoaded).1.categories = JVal.jnum 5 ∧
      (loadState (StoredItem.parsed (JVal.jobj [("categories", JVal.jnum 5)]))
        sampleLoaded).1.categories ≠ JVal.jarr [] := by
  have hred : (loadState
      (StoredItem.parsed (JVal.jobj [("categories", JVal.jnum 5)]))
      sampleLoaded).1.categories = (JVal.jnum 5).orDefault (JVal.jarr []) := rfl
  have ht : (JVal.jnum 5).truthy = true := by norm_num [JVal.truthy]
  rw [hred, JVal.orDefault_of_truthy _ ht]
  exact ⟨rfl, fun hx => JVal.noConfusion hx⟩

/-- C6 (amended): `loadState` substitutes the defaults for missing or falsy
entries — no record, unparseable text or a parsed `null` leave the state
unchanged and return `false`; a record without the keys loads the defaults
(`[]`, `true`, `1`, `1`) and returns `true`; a falsy corrupt `categories`
(e.g. `null`) becomes the empty sequence; a present `isWeighted := false`
is kept.  (A truthy corrupt `categories` value is kept as-is.) -/
theorem C6_load_defaults (st0 : LoadedState) :
    loadState StoredItem.absent st0 = (st0, false) ∧
    loadState StoredItem.corruptText st0 = (st0, false) ∧
    loadState (StoredItem.parsed JVal.jnull) st0 = (st0, false) ∧
    loadState (StoredItem.parsed (JVal.jobj [])) st0 =
      ({ categories := JVal.jarr [], isWeighted := JVal.jbool true,
         nextCategoryId := JVal.jnum 1, nextGradeId := JVal.jnum 1 }, true) ∧
    (loadState (StoredItem.parsed (JVal.jobj [("categories", JVal.jnull)]))
        st0).1.categories = JVal.jarr [] ∧
    (loadState (StoredItem.parsed (JVal.jobj [("isWeighted", JVal.jbool false)]))
        st0).1.isWeighted = JVal.jbool false :=
  ⟨rfl, rfl, rfl, rfl, rfl, rfl⟩

/-- C7: operating on ids that do not exist is a silent no-op:
`removeCategory` with an absent category id, `createGrade` with an absent
category id (which also returns nothing), `removeGrade` with an absent
category id, and `removeGrade` with an absent grade id all leave the state
unchanged. -/
theorem C7_stale_id_noop (s : CalculatorState) (cid : String)
    (h : ∀ c ∈ s.categories, c.id ≠ cid) :
    removeCategory cid s = s ∧
    (∀ (n : String) (sc mx : JsVal), createGrade cid n sc mx s = (none, s)) ∧
    (∀ gid : String, removeGrade cid gid s = s) ∧
    (∀ cid2 gid : String, (∀ c ∈ s.categories, ∀ g ∈ c.grades, g.id ≠ gid) →
      removeGrade cid2 gid s = s) :=
  ⟨removeCategory_noop s cid h,
   fun n sc mx => createGrade_noop s cid n sc mx h,
   fun gid => removeGrade_noop_nocat s cid gid h,
   fun cid2 gid hg => removeGrade_noop_nogid s cid2 gid hg⟩

/-- Witness for C7 at a concrete state and the absent id "cat-99". -/
theorem C7_stale_id_noop_witness :
    (∀ c ∈ sampleState.categories, c.id ≠ "cat-99") ∧
      (removeCategory "cat-99" sampleState = sampleState ∧
       (∀ (n : String) (sc mx : JsVal),
         createGrade "cat-99" n sc mx sampleState = (none, sampleState)) ∧
       (∀ gid : String, removeGrade "cat-99" gid sampleState = sampleState) ∧
       (∀ cid2 gid : String,
         (∀ c ∈ sampleState.categories, ∀ g ∈ c.grades, g.id ≠ gid) →
         removeGrade cid2 gid sampleState = sampleState)) :=
  ⟨by decide, C7_stale_id_noop sampleState "cat-99" (by decide)⟩

/-- C8: the two id counters never decrease under any sequence of
create/remove operations, and ids are not reused: from the initial state,
creating a category mints "cat-1", and after deleting it the next category
minted is "cat-2", not "cat-1". -/
theorem C8_counters_monotone :
    (∀ (ops : List StoreOp) (s : CalculatorState),
      s.nextCategoryId ≤ (applyOps s ops).nextCategoryId ∧
        s.nextGradeId ≤ (applyOps s ops).nextGradeId) ∧
    (createCategory "Assignments" (JsVal.num 100) initialState).1.id =
      "cat-1" ∧
    (createCategory "Homework" (JsVal.num 25)
        (removeCategory "cat-1"
          (createCategory "Assignments" (JsVal.num 100) initialState).2)).1.id =
      "cat-2" := by
  refine ⟨fun ops s => applyOps_counters ops s, ?_, ?_⟩ <;> decide

/-- C9: the aggregation engine is total and all its divisions are guarded:
the summed max of a nonempty valid-grade list is positive in the JS sense
(on every input), the category average and final grade are the absent value
or a finite number on every well-formed input, a zero weight sum yields the
absent value rather than a division, and the letter mapping always yields
one of the twelve letters. -/
theorem C9_aggregation_total :
    (∀ grades : List GradeItem, grades.filter isValidGrade ≠ [] →
      (totalMax (grades.filter isValidGrade)).gt (JsVal.num 0) = true) ∧
    (∀ grades : List GradeItem, (∀ g ∈ grades, wfGrade g = true) →
      calculateCategoryAverage grades = JsVal.null ∨
        ∃ q : ℚ, calculateCategoryAverage grades = JsVal.num q) ∧
    (∀ (cats : List Category) (w : Bool), (∀ c ∈ cats, wfCategory c = true) →
      calculateFinalGrade cats w = JsVal.null ∨
        ∃ q : ℚ, calculateFinalGrade cats w = JsVal.num q) ∧
    (∀ cats : List Category, (∀ c ∈ cats, wfCategory c = true) →
      ((cats.filter hasData).map weightQ).sum = 0 →
      calculateFinalGrade cats true = JsVal.null) ∧
    (∀ v : JsVal, getLetterGrade v ∈ ["A", "A-", "B+", "B", "B-", "C+", "C",
      "C-", "D+", "D", "D-", "F"]) := by
  refine ⟨totalMax_pos_of_valid, categoryAverage_null_or_num,
    fun cats w h => finalGrade_null_or_num cats w h, ?_, letter_mem⟩
  intro cats h hsum
  rw [finalWeighted_eq_spec cats h]
  by_cases hwd : cats.filter hasData = []
  · simp [specFinalWeighted, hwd]
  · simp [specFinalWeighted, hwd, hsum]

/-- C10: the filter of `calculateCategoryAverage` tests only non-nullness,
not presence: an item whose score key is absent (`undefined`) passes the
filter (undefined is not null, and its numeric max passes `max > 0`) and is
included in the summed totals, making the total and the returned average
`NaN`; an item with a null score is excluded whatever its max. -/
theorem C10_undefined_score_passes_filter :
    isValidGrade ⟨"grade-9", "hw", JsVal.undef, JsVal.num 10⟩ = true ∧
    [GradeItem.mk "grade-9" "hw" JsVal.undef (JsVal.num 10)].filter
      isValidGrade = [⟨"grade-9", "hw", JsVal.undef, JsVal.num 10⟩] ∧
    totalScore [⟨"grade-9", "hw", JsVal.undef, JsVal.num 10⟩] = JsVal.nan ∧
    calculateCategoryAverage [⟨"grade-9", "hw", JsVal.undef, JsVal.num 10⟩] =
      JsVal.nan ∧
    (∀ (i n : String) (q : ℚ),
      isValidGrade ⟨i, n, JsVal.null, JsVal.num q⟩ = false) := by
  have hv : isValidGrade ⟨"grade-9", "hw", JsVal.undef, JsVal.num 10⟩ = true := by
    norm_num [isValidGrade, JsVal.gt, JsVal.toNumber]
  have hf : [GradeItem.mk "grade-9" "hw" JsVal.undef (JsVal.num 10)].filter
      isValidGrade = [⟨"grade-9", "hw", JsVal.undef, JsVal.num 10⟩] := by
    rw [List.filter_cons, if_pos hv]
    rfl
  refine ⟨hv, hf, rfl, ?_, fun i n q => rfl⟩
  simp only [calculateCategoryAverage, hf]
  rfl
